import Mathlib

/-!
Shallow embedding of the trivia quiz application (`app.mjs`).

The application is a small Express server.  Its core logic — answer parsing,
grading, search filtering and answer decoration — is pure string and list
processing, embedded here as executable Lean functions over `String` and
`List`.  JavaScript string primitives (`split`, `trim`, `toLowerCase`,
`includes`, `join`) are modelled by structurally recursive functions on
`List Char`, so every definition evaluates by kernel reduction.
-/

namespace Trivia

/-- `Char.toLower` applied pointwise: model of JavaScript
`String.prototype.toLowerCase` (ASCII case folding, which is what the
quiz data exercises). -/
def lowerStr (s : String) : String := ⟨s.data.map Char.toLower⟩

/-- Splitting a character list at commas, accumulating the current piece in
reverse.  Model of JavaScript `String.prototype.split(",")`: the empty
string yields `[""]`, and consecutive commas yield empty pieces. -/
def splitCommaAux : List Char → List Char → List (List Char)
  | [], acc => [acc.reverse]
  | c :: rest, acc =>
    if c = ',' then acc.reverse :: splitCommaAux rest [] else splitCommaAux rest (c :: acc)

/-- Split a string on commas, JavaScript `split(",")` semantics. -/
def splitComma (s : String) : List String :=
  (splitCommaAux s.data []).map (fun l => ⟨l⟩)

/-- Drop leading whitespace characters. -/
def dropLeadingWs : List Char → List Char
  | [] => []
  | c :: rest => if c.isWhitespace then dropLeadingWs rest else c :: rest

/-- Model of JavaScript `String.prototype.trim`: drop whitespace from both
ends. -/
def strTrim (s : String) : String :=
  ⟨(dropLeadingWs ((dropLeadingWs s.data).reverse)).reverse⟩

/-- Does `needle` occur at the start of the second list?  Model of a
prefix test on characters. -/
def beginsWith : List Char → List Char → Bool
  | [], _ => true
  | _ :: _, [] => false
  | a :: as, b :: bs => a == b && beginsWith as bs

/-- Does `needle` occur contiguously anywhere in the second list?  Model of
JavaScript `String.prototype.includes` on the underlying characters. -/
def listIncludes (needle : List Char) : List Char → Bool
  | [] => needle.isEmpty
  | c :: rest => beginsWith needle (c :: rest) || listIncludes needle rest

/-- `hay.includes(needle)` for strings. -/
def strIncludes (hay needle : String) : Bool :=
  listIncludes needle.data hay.data

/-- JavaScript `Array.prototype.join(sep)`. -/
def joinWith (sep : String) : List String → String
  | [] => ""
  | [a] => a
  | a :: b :: rest => a ++ sep ++ joinWith sep (b :: rest)

/-- `decorate` from `app.mjs` lines 27–33: wrap an answer in a span marking
it correct or incorrect.  The template literal inserts `answer` verbatim. -/
def decorate (answer : String) (correct : Bool) : String :=
  if correct then "<span class=\"correct-answer\">" ++ answer ++ "</span>"
  else "<span class=\"incorrect-answer\">" ++ answer ++ "</span>"

/-- The answer parser of `POST /quiz` (`app.mjs` lines 95–98):
`answer.split(",").map(a => a.trim()).filter(a => a.length > 0)`. -/
def userAnswersOf (answer : String) : List String :=
  ((splitComma answer).map strTrim).filter (fun a => a.length > 0)

/-- The answers parser of `POST /questions` (`app.mjs` lines 173–176):
`answers.split(",").map(a => a.trim()).filter(a => a.length > 0)`. -/
def ansArrOf (answers : String) : List String :=
  ((splitComma answers).map strTrim).filter (fun a => a.length > 0)

/-- The per-answer correctness test of `app.mjs` lines 105–107:
`quizQuestion.answers.some(correctAns => correctAns.toLowerCase() === ans.toLowerCase())`. -/
def isCorrectAns (accepted : List String) (ans : String) : Bool :=
  accepted.any (fun correctAns => lowerStr correctAns == lowerStr ans)

/-- `correctCount` of `app.mjs` lines 103–112: the number of submitted
answers whose per-answer test succeeds (the source increments a counter
inside the `map`; counting the filter is the same computation). -/
def correctCount (accepted submitted : List String) : Nat :=
  (submitted.filter (isCorrectAns accepted)).length

/-- `decoratedAnswers` of `app.mjs` lines 104–112: each submitted answer
decorated with its own per-answer flag. -/
def decoratedAnswers (accepted submitted : List String) : List String :=
  submitted.map (fun ans => decorate ans (isCorrectAns accepted ans))

/-- The status classification of `app.mjs` lines 118–126:
`Incorrect` when `correctCount === 0`; `Correct` when
`correctCount === quizQuestion.answers.length && userAnswers.length === quizQuestion.answers.length`;
otherwise `Partially Correct`. -/
def gradeStatus (accepted submitted : List String) : String :=
  if correctCount accepted submitted = 0 then "Incorrect"
  else if correctCount accepted submitted = accepted.length
          ∧ submitted.length = accepted.length then "Correct"
  else "Partially Correct"

/-- A question record (`Query` objects stored in the global `queries`
array): id, display text, genre, accepted answers. -/
structure Question where
  id : String
  question : String
  genre : String
  answers : List String
deriving DecidableEq

/-- The match predicate of `GET /questions` (`app.mjs` lines 149–159),
applied with the already-lowercased search string `s`: case-insensitive
substring match on the question text, the genre, or some accepted answer. -/
def questionMatches (s : String) (q : Question) : Bool :=
  strIncludes (lowerStr q.question) s
  || strIncludes (lowerStr q.genre) s
  || q.answers.any (fun ans => strIncludes (lowerStr ans) s)

/-- The filter of `GET /questions` (`app.mjs` lines 140–160): `search` is
`none` when absent; `if (search)` is falsy for the empty string, in which
case all questions are returned; otherwise the array is filtered with the
lowercased search string. -/
def filterQuestions (queries : List Question) (search : Option String) : List Question :=
  match search with
  | none => queries
  | some search =>
    if search = "" then queries
    else queries.filter (questionMatches (lowerStr search))

/-- The observable outcome of a `POST /quiz` request: either the plain
invalid-question message, or the data handed to `res.render("quiz", ...)`. -/
inductive QuizResponse where
  | invalid (message : String)
  | rendered (question : String) (id : String) (answer : String)
      (correction : String) (status : String)
deriving DecidableEq

/-- The `POST /quiz` handler (`app.mjs` lines 80–137) as a function from the
repository state and the form fields to the new state and the response.
The handler never mutates `queries`, so the state component is returned
unchanged on both paths; on the not-found path no parsing or grading is
performed. -/
def postQuiz (queries : List Question) (id : String) (answer : String) :
    List Question × QuizResponse :=
  match queries.find? (fun q => q.id == id) with
  | none => (queries, QuizResponse.invalid "Invalid question submitted.")
  | some quizQuestion =>
    (queries,
      QuizResponse.rendered quizQuestion.question quizQuestion.id answer
        (joinWith ", " (decoratedAnswers quizQuestion.answers (userAnswersOf answer)))
        (gradeStatus quizQuestion.answers (userAnswersOf answer)))

/-- The case-folded set-equality condition stated by the specification for
the `Correct` classification (spec §4.2/§8), written from the spec's words:
the case-folded submitted answers and the case-folded accepted answers are
equal as sets.  This is the spec-side definition, to be compared with the
code's `gradeStatus`. -/
def specFoldSetEq (submitted accepted : List String) : Prop :=
  ∀ t : String, (∃ s ∈ submitted, lowerStr s = t) ↔ (∃ a ∈ accepted, lowerStr a = t)

/-- The contiguous-substring relation on strings, the mathematical meaning
of the spec's "the case-folded query is a substring of" (spec §4.3). -/
def specSubstr (needle hay : String) : Prop :=
  ∃ l r : List Char, hay.data = l ++ needle.data ++ r

-- Sample questions used to instantiate witness theorems.
def sampleQ1 : Question := ⟨"id1", "2+2?", "math", ["4", "four"]⟩
def sampleQ2 : Question := ⟨"id2", "Capital of France?", "geography", ["Paris"]⟩

/-! ### Helper lemmas -/

/-- `beginsWith` decides the prefix relation on character lists. -/
theorem beginsWith_iff (n : List Char) : ∀ h : List Char,
    beginsWith n h = true ↔ ∃ t, h = n ++ t := by
  induction n with
  | nil => intro h; simp [beginsWith]
  | cons a as ih =>
    intro h
    cases h with
    | nil =>
      simp [beginsWith]
    | cons b bs =>
      simp only [beginsWith, Bool.and_eq_true, beq_iff_eq, ih, List.cons_append,
        List.cons.injEq]
      constructor
      · rintro ⟨rfl, t, rfl⟩; exact ⟨t, rfl, rfl⟩
      · rintro ⟨t, rfl, rfl⟩; exact ⟨rfl, t, rfl⟩

/-- `listIncludes` decides the contiguous-substring relation on character
lists. -/
theorem listIncludes_iff (n : List Char) : ∀ h : List Char,
    listIncludes n h = true ↔ ∃ l r, h = l ++ n ++ r := by
  intro h
  induction h with
  | nil =>
    simp only [listIncludes, List.isEmpty_iff]
    constructor
    · rintro rfl; exact ⟨[], [], rfl⟩
    · rintro ⟨l, r, hr⟩
      obtain ⟨h1, -⟩ := List.append_eq_nil.mp hr.symm
      obtain ⟨-, h2⟩ := List.append_eq_nil.mp h1
      exact h2
  | cons c rest ih =>
    simp only [listIncludes, Bool.or_eq_true, beginsWith_iff, ih]
    constructor
    · rintro (⟨t, ht⟩ | ⟨l, r, hr⟩)
      · exact ⟨[], t, by simp [ht]⟩
      · exact ⟨c :: l, r, by simp [hr]⟩
    · rintro ⟨l, r, hr⟩
      cases l with
      | nil => exact Or.inl ⟨r, by simpa using hr⟩
      | cons c₂ l₂ =>
        simp only [List.cons_append, List.cons.injEq] at hr
        exact Or.inr ⟨l₂, r, hr.2⟩

/-- `strIncludes` agrees with the mathematical substring relation. -/
theorem strIncludes_iff (hay needle : String) :
    strIncludes hay needle = true ↔ specSubstr needle hay :=
  listIncludes_iff needle.data hay.data

/-- The search match predicate, characterised through the substring
relation on case-folded fields. -/
theorem questionMatches_iff (s : String) (q : Question) :
    questionMatches s q = true ↔
      specSubstr s (lowerStr q.question) ∨ specSubstr s (lowerStr q.genre)
        ∨ ∃ a ∈ q.answers, specSubstr s (lowerStr a) := by
  simp [questionMatches, List.any_eq_true, strIncludes_iff, or_assoc]

/-- The case-folded submitted set never contains `"four"` when the user
submits the duplicate text `4,4`: the single shared refutation of the
spec's set-equality reading of `Correct`. -/
theorem not_specFoldSetEq_dup : ¬ specFoldSetEq ["4", "4"] ["4", "four"] := by
  intro hset
  obtain ⟨s, hs, hl⟩ := (hset "four").mpr ⟨"four", by simp, by decide⟩
  simp only [List.mem_cons, List.not_mem_nil, or_false, or_self] at hs
  subst hs
  exact absurd hl (by decide)

/-! ### Claim theorems -/

/-- Claim C1 counterexample: submitting `"4,4"` against accepted answers
`["4", "four"]` is classified `Correct` by the code even though the
case-folded submitted set does not equal the case-folded accepted set, so
the claimed iff fails (its left side holds, its right side does not). -/
theorem c1_set_equality_counterexample :
    gradeStatus ["4", "four"] (userAnswersOf "4,4") = "Correct"
    ∧ ¬ (specFoldSetEq (userAnswersOf "4,4") ["4", "four"]
        ∧ (userAnswersOf "4,4").length = (["4", "four"] : List String).length) := by
  refine ⟨by decide, ?_⟩
  rintro ⟨hset, -⟩
  have he : userAnswersOf "4,4" = ["4", "4"] := by decide
  rw [he] at hset
  exact not_specFoldSetEq_dup hset

/-- Claim C1 as amended: for a non-empty accepted list `A`, the status is
`Correct` iff every submitted answer matches some accepted answer
case-insensitively and the submitted count equals the accepted count —
case-folded set equality (and hence pairwise distinctness of the
submissions) is not required. -/
theorem c1_amended (A S : List String) (h : A ≠ []) :
    gradeStatus A S = "Correct"
      ↔ (∀ a ∈ S, isCorrectAns A a = true) ∧ S.length = A.length := by
  unfold gradeStatus
  split
  case isTrue h0 =>
    constructor
    · intro hc; exact absurd hc (by decide)
    · rintro ⟨hall, hlen⟩
      exfalso
      have hcc : correctCount A S = S.length := List.filter_length_eq_length.mpr hall
      rw [h0] at hcc
      rw [hlen] at hcc
      exact h (List.length_eq_zero.mp hcc.symm)
  case isFalse h0 =>
    split
    case isTrue hc =>
      obtain ⟨hcc, hlen⟩ := hc
      refine ⟨fun _ => ⟨?_, hlen⟩, fun _ => rfl⟩
      have : correctCount A S = S.length := by omega
      exact fun a ha => List.filter_length_eq_length.mp this a ha
    case isFalse hc =>
      constructor
      · intro habs; exact absurd habs (by decide)
      · rintro ⟨hall, hlen⟩
        exfalso
        have : correctCount A S = S.length := List.filter_length_eq_length.mpr hall
        exact hc ⟨by omega, hlen⟩

/-- Claim C1 witness: the duplicate submission `["4", "4"]` against
`["4", "four"]` satisfies the amended condition and is graded `Correct`. -/
theorem c1_amended_witness :
    gradeStatus ["4", "four"] ["4", "4"] = "Correct" :=
  (c1_amended ["4", "four"] ["4", "4"] (by decide)).mpr ⟨by decide, by decide⟩

/-- Claim C2 counterexample: for `"4,4"` against `["4", "four"]` the
claim's hypothesis holds (one submitted answer matches, and the spec's
Correct condition fails), yet the code does not classify it
`Partially Correct` — it classifies it `Correct`. -/
theorem c2_partially_correct_counterexample :
    ((userAnswersOf "4,4").any (isCorrectAns ["4", "four"]) = true
      ∧ ¬ (specFoldSetEq (userAnswersOf "4,4") ["4", "four"]
          ∧ (userAnswersOf "4,4").length = (["4", "four"] : List String).length))
    ∧ gradeStatus ["4", "four"] (userAnswersOf "4,4") ≠ "Partially Correct" := by
  refine ⟨⟨by decide, ?_⟩, by decide⟩
  rintro ⟨hset, -⟩
  have he : userAnswersOf "4,4" = ["4", "4"] := by decide
  rw [he] at hset
  exact not_specFoldSetEq_dup hset

/-- Claim C2 as amended: if at least one submitted answer matches an
accepted answer but the code's `Correct` condition — matching-submission
count equal to the accepted count and submitted count equal to the
accepted count — fails, the status is `Partially Correct`. -/
theorem c2_amended (A S : List String)
    (h1 : S.any (isCorrectAns A) = true)
    (h2 : ¬ (correctCount A S = A.length ∧ S.length = A.length)) :
    gradeStatus A S = "Partially Correct" := by
  have hpos : ¬ correctCount A S = 0 := by
    obtain ⟨a, ha, hpa⟩ := List.any_eq_true.mp h1
    have hmem : a ∈ S.filter (isCorrectAns A) := List.mem_filter.mpr ⟨ha, hpa⟩
    intro h0
    rw [show correctCount A S = (S.filter (isCorrectAns A)).length from rfl,
      List.length_eq_zero] at h0
    rw [h0] at hmem
    exact List.not_mem_nil a hmem
  unfold gradeStatus
  rw [if_neg hpos, if_neg h2]

/-- Claim C2 witness: submitting only `["4"]` against `["4", "four"]`
matches once but fails the Correct condition, and grades
`Partially Correct`. -/
theorem c2_amended_witness :
    gradeStatus ["4", "four"] ["4"] = "Partially Correct" :=
  c2_amended ["4", "four"] ["4"] (by decide) (by decide)

/-- Claim C3: when no submitted answer matches any accepted answer
case-insensitively — in particular when the parsed submission is empty —
the status is `Incorrect`, and an empty submission yields an empty
decorated list. -/
theorem c3_no_match_incorrect (A S : List String)
    (h : ∀ a ∈ S, isCorrectAns A a = false) :
    gradeStatus A S = "Incorrect" ∧ (S = [] → decoratedAnswers A S = []) := by
  have h0 : correctCount A S = 0 := by
    rw [show correctCount A S = (S.filter (isCorrectAns A)).length from rfl,
      List.length_eq_zero, List.filter_eq_nil_iff]
    intro a ha
    simp [h a ha]
  refine ⟨?_, ?_⟩
  · unfold gradeStatus
    rw [if_pos h0]
  · rintro rfl
    rfl

/-- Claim C3 witness: whitespace-and-comma-only text parses to the empty
submission, which grades `Incorrect` with an empty decorated list. -/
theorem c3_witness :
    userAnswersOf " ,  " = []
    ∧ gradeStatus ["4", "four"] (userAnswersOf " ,  ") = "Incorrect"
    ∧ decoratedAnswers ["4", "four"] (userAnswersOf " ,  ") = [] := by
  have h := c3_no_match_incorrect ["4", "four"] (userAnswersOf " ,  ") (by decide)
  exact ⟨by decide, h.1, h.2 (by decide)⟩

/-- Claim C4: the decorated list is a pointwise map, so the flag of the
`i`-th submitted answer depends only on that answer and the accepted list,
and the flag is true exactly on case-insensitive membership in the
accepted list. -/
theorem c4_per_answer_flag (A S : List String) (i : Nat) :
    (decoratedAnswers A S)[i]? = (S[i]?).map (fun a => decorate a (isCorrectAns A a))
    ∧ ∀ a : String, (isCorrectAns A a = true ↔ ∃ c ∈ A, lowerStr c = lowerStr a) := by
  constructor
  · exact List.getElem?_map _ S i
  · intro a
    simp [isCorrectAns, List.any_eq_true]

/-- Claim C5: the `POST /quiz` answer parser and the `POST /questions`
answers parser are the same function — split on commas, trim each piece,
drop pieces empty after trimming, keep order — and on `"a, b ,,c"` they
produce `["a", "b", "c"]`. -/
theorem c5_parsers_agree (raw : String) :
    userAnswersOf raw = ansArrOf raw
    ∧ userAnswersOf raw = ((splitComma raw).map strTrim).filter (fun a => a ≠ "")
    ∧ userAnswersOf "a, b ,,c" = ["a", "b", "c"] := by
  refine ⟨rfl, ?_, by decide⟩
  unfold userAnswersOf
  apply List.filter_congr
  intro a _
  rw [decide_eq_decide]
  constructor
  · intro hp he
    rw [he] at hp
    exact absurd hp (by decide)
  · intro hne
    rcases Nat.eq_zero_or_pos a.length with h0 | hpos
    · obtain ⟨l⟩ := a
      have : l = [] := List.length_eq_zero.mp h0
      subst this
      exact absurd rfl hne
    · exact hpos

/-- Claim C6: filtering with an absent or empty query returns the
repository unchanged; filtering with a non-empty query returns a sublist
(hence repository order) holding exactly the questions whose case-folded
question text, genre, or some accepted answer contains the case-folded
query as a substring; and the filter is idempotent. -/
theorem c6_search_filter (qs : List Question) (s : String) :
    filterQuestions qs none = qs
    ∧ filterQuestions qs (some "") = qs
    ∧ (s ≠ "" →
        (filterQuestions qs (some s)).Sublist qs
        ∧ ∀ q : Question, q ∈ filterQuestions qs (some s) ↔
            q ∈ qs ∧ (specSubstr (lowerStr s) (lowerStr q.question)
              ∨ specSubstr (lowerStr s) (lowerStr q.genre)
              ∨ ∃ a ∈ q.answers, specSubstr (lowerStr s) (lowerStr a)))
    ∧ ∀ t : Option String, filterQuestions (filterQuestions qs t) t = filterQuestions qs t := by
  refine ⟨rfl, by simp [filterQuestions], ?_, ?_⟩
  · intro hs
    simp only [filterQuestions]
    rw [if_neg hs]
    exact ⟨List.filter_sublist qs,
      fun q => by rw [List.mem_filter, questionMatches_iff]⟩
  · intro t
    match t with
    | none => rfl
    | some t =>
      simp only [filterQuestions]
      by_cases ht : t = ""
      · rw [if_pos ht, if_pos ht]
      · rw [if_neg ht, if_neg ht, List.filter_filter]
        exact List.filter_congr fun a _ => Bool.and_self _

/-- Claim C6 witness: searching `"math"` keeps the sample question whose
genre is `"math"`. -/
theorem c6_witness :
    sampleQ1 ∈ filterQuestions [sampleQ1, sampleQ2] (some "math") := by
  have h := (c6_search_filter [sampleQ1, sampleQ2] "math").2.2.1 (by decide)
  exact (h.2 sampleQ1).mpr
    ⟨List.mem_cons_self sampleQ1 [sampleQ2], Or.inr (Or.inl ⟨[], [], by decide⟩)⟩

/-- Claim C7: `decorate` is a pure function of its two arguments (it is a
Lean function), and the outputs for the two flag values on the same answer
string are always distinct — their lengths differ by two. -/
theorem c7_decorate_distinct (x : String) : decorate x true ≠ decorate x false := by
  intro h
  have hl := congrArg String.length h
  have h1 : ("<span class=\"correct-answer\">" : String).length = 29 := rfl
  have h2 : ("<span class=\"incorrect-answer\">" : String).length = 31 := rfl
  have h3 : ("</span>" : String).length = 7 := rfl
  simp only [decorate, if_true, Bool.false_eq_true, if_false,
    String.length_append, h1, h2, h3] at hl
  omega

/-- Claim C8: when no question in the repository carries the submitted id,
the `POST /quiz` handler answers with the plain invalid-question message
and leaves the repository unchanged; the not-found branch returns before
any parsing or grading. -/
theorem c8_invalid_question (qs : List Question) (id answer : String)
    (h : ∀ q ∈ qs, q.id ≠ id) :
    postQuiz qs id answer = (qs, QuizResponse.invalid "Invalid question submitted.") := by
  have hf : qs.find? (fun q => q.id == id) = none := by
    rw [List.find?_eq_none]
    intro q hq
    simp [h q hq]
  unfold postQuiz
  rw [hf]

/-- Claim C8 witness: submitting against an id absent from the repository
returns the invalid-question response with the repository intact. -/
theorem c8_witness :
    postQuiz [sampleQ1] "nope" "4"
      = ([sampleQ1], QuizResponse.invalid "Invalid question submitted.") :=
  c8_invalid_question [sampleQ1] "nope" "4" (by decide)

/-- Claim C9: `decorate` produces exactly the correct-answer span or the
incorrect-answer span around the answer text, whose characters are
inserted verbatim, with no escaping or other transformation. -/
theorem c9_decorate_verbatim (x : String) :
    decorate x true = "<span class=\"correct-answer\">" ++ x ++ "</span>"
    ∧ decorate x false = "<span class=\"incorrect-answer\">" ++ x ++ "</span>"
    ∧ (decorate x true).data
        = "<span class=\"correct-answer\">".data ++ x.data ++ "</span>".data
    ∧ (decorate x false).data
        = "<span class=\"incorrect-answer\">".data ++ x.data ++ "</span>".data :=
  ⟨rfl, rfl, rfl, rfl⟩

/-- Claim C10: against an empty accepted-answers list every submission —
parsed from any raw text, including blank text — is classified
`Incorrect`: the zero-matches branch fires before the count-equality
check. -/
theorem c10_empty_accepted_incorrect (S : List String) (raw : String) :
    gradeStatus [] S = "Incorrect" ∧ gradeStatus [] (userAnswersOf raw) = "Incorrect" := by
  have key : ∀ T : List String, gradeStatus [] T = "Incorrect" := by
    intro T
    have h0 : correctCount [] T = 0 := by
      simp [correctCount, isCorrectAns]
    unfold gradeStatus
    rw [if_pos h0]
  exact ⟨key S, key (userAnswersOf raw)⟩

end Trivia
